import Mathlib

/-!
Verification of the two utility modules of this repository,
`src/limpieza_texto.py` and `src/cnx_api.py`, against their specification.

Embedding conventions:
* Python strings are modelled as `List Char` (with `String.data` used to write
  concrete examples readably).
* Python's `None` / arbitrary first arguments to the guarded text functions are
  modelled by the inductive `PyValue`; raising `TypeError` is modelled by
  `Except`.
* Python dicts of HTTP headers are modelled as ordered association lists
  (`dict` preserves insertion order and inserting a fresh key appends it).
* The HTTP transport (`requests.request` / `session.request`) is an explicit
  stateful collaborator `σ → RequestArgs → σ × Except String (Response β)`, so
  that the dispatched request and the number of transport calls are observable.
-/

namespace Spec2Proof

/-! ## Python character primitives -/

/-- The set of characters matched by Python's regex `\s` on `str` (and stripped
by `str.strip()` with no arguments): exactly the code points for which
`Py_UNICODE_ISSPACE` holds. -/
def pyIsSpace (c : Char) : Bool :=
  let n := c.toNat
  (decide (0x09 ≤ n) && decide (n ≤ 0x0D)) || (n == 0x20) ||
  (decide (0x1C ≤ n) && decide (n ≤ 0x1F)) || (n == 0x85) || (n == 0xA0) ||
  (n == 0x1680) || (decide (0x2000 ≤ n) && decide (n ≤ 0x200A)) ||
  (n == 0x2028) || (n == 0x2029) || (n == 0x202F) || (n == 0x205F) ||
  (n == 0x3000)

/-- The ASCII space character, `" "`, the replacement text in
`PATRON_MULTIESPACIO.sub(" ", texto)`. -/
def espacio : Char := Char.ofNat 0x20

/-- `str.strip()` with no arguments: remove leading and trailing whitespace. -/
def pyStrip (l : List Char) : List Char :=
  List.rdropWhile pyIsSpace (l.dropWhile pyIsSpace)

/-! ## `limpieza_texto.limpiar_espacios` -/

/-- One left-to-right pass of `re.sub` with the compiled pattern
`PATRON_MULTIESPACIO = re.compile(r"\s{2,}")` and replacement `" "`: scanning
left to right, each maximal run of two or more whitespace characters is
replaced by a single ASCII space, while a lone whitespace character is kept
unchanged. The Boolean state records whether the scanner is inside a run that
has already been replaced (and whose remaining characters are dropped). -/
def subGo : List Char → Bool → List Char
  | [], _ => []
  | c :: cs, true => if pyIsSpace c then subGo cs true else c :: subGo cs false
  | c :: cs, false =>
    if pyIsSpace c then
      match cs with
      | [] => [c]
      | d :: _ => if pyIsSpace d then espacio :: subGo cs true else c :: subGo cs false
    else c :: subGo cs false

/-- `PATRON_MULTIESPACIO.sub(" ", texto)` from `limpieza_texto.py`. -/
def sub_multiespacio (l : List Char) : List Char := subGo l false

/-- Body of `limpiar_espacios` (the wrapped function, after the guard):
`PATRON_MULTIESPACIO.sub(" ", texto).strip()`. -/
def limpiar_espacios_core (texto : List Char) : List Char :=
  pyStrip (sub_multiespacio texto)

/-! ## `limpieza_texto.limpiar_caracteres` -/

/-- Membership in the character class of the pattern
`rf"[^a-zA-Z0-9\s{caracteres_permitidos}]"` built by `limpiar_caracteres`,
where `caracteres_permitidos = re.escape("".join(permitir_caracter))`.
Because every allowed character is escaped by `re.escape`, it stands in the
class as a literal (never as a range or class operator), so the class is the
plain union of the ranges `a-z`, `A-Z`, `0-9`, the `\s` set, and the set of
allowed characters. -/
def enClase (permitir_caracter : List Char) (c : Char) : Bool :=
  (decide ('a' ≤ c) && decide (c ≤ 'z')) ||
  (decide ('A' ≤ c) && decide (c ≤ 'Z')) ||
  (decide ('0' ≤ c) && decide (c ≤ '9')) ||
  pyIsSpace c || permitir_caracter.contains c

/-- Body of `limpiar_caracteres` (the wrapped function, after the guard):
`re.sub(patron, "", texto)` deletes every character matching
`[^a-zA-Z0-9\s...]`, i.e. keeps exactly the characters in the class. -/
def limpiar_caracteres_core (texto : List Char) (permitir_caracter : List Char) :
    List Char :=
  texto.filter (enClase permitir_caracter)

/-! ## `limpieza_texto.decorador_validar_texto` -/

/-- A Python runtime value passed as the first argument `texto` of a guarded
function. `vNone` is the absent marker; the remaining constructors cover the
non-string types used to exercise the guard. -/
inductive PyValue where
  | vNone
  | vStr (s : List Char)
  | vInt (n : Int)
  | vBool (b : Bool)
deriving DecidableEq

/-- `type(texto).__name__` for a `PyValue`. -/
def pyTypeName : PyValue → String
  | .vNone => "NoneType"
  | .vStr _ => "str"
  | .vInt _ => "int"
  | .vBool _ => "bool"

/-- The `TypeError` message raised by the guard
(source: `f"Se esperaba 'str' o None, pero se recibió {type(texto).__name__!r}"`;
the quoting added by `!r` around the type name is elided here). -/
def mensajeError (v : PyValue) : String :=
  "Se esperaba str o None, pero se recibio " ++ pyTypeName v

/-- A raised Python exception of `limpieza_texto.py`. -/
inductive PyErr where
  | typeError (mensaje : String)
deriving DecidableEq

/-- The `wrapper` produced by `decorador_validar_texto func`:
if `texto is None` return `None`; if `texto` is not a `str` raise `TypeError`;
otherwise call the wrapped function on it. -/
def decorador_validar_texto {α : Type} (func : List Char → α) :
    PyValue → Except PyErr (Option α)
  | .vNone => .ok none
  | .vStr s => .ok (some (func s))
  | v => .error (.typeError (mensajeError v))

/-- `limpiar_espacios` as exported: the guard wrapping `limpiar_espacios_core`. -/
def limpiar_espacios : PyValue → Except PyErr (Option (List Char)) :=
  decorador_validar_texto limpiar_espacios_core

/-- `limpiar_caracteres` as exported: the guard wrapping
`limpiar_caracteres_core`, with the extra parameter `permitir_caracter`
passed through by the wrapper's `*args`. -/
def limpiar_caracteres (texto : PyValue) (permitir_caracter : List Char) :
    Except PyErr (Option (List Char)) :=
  decorador_validar_texto (fun t => limpiar_caracteres_core t permitir_caracter) texto

/-! ## `cnx_api.request_api` -/

/-- HTTP headers: a Python `dict[str, str]`, as an insertion-ordered
association list. -/
abbrev Headers := List (String × String)

/-- Python `"Authorization" in final_headers`: a case-sensitive key lookup. -/
def containsKey (k : String) (h : Headers) : Bool :=
  h.any (fun p => p.1 == k)

/-- The response object returned by the transport: a status code plus an
opaque body. -/
structure Response (β : Type) where
  statusCode : Nat
  body : β
deriving DecidableEq

/-- The arguments `request_func(method=..., url=..., params=..., json=...,
headers=..., timeout=...)` dispatched to the transport. -/
structure RequestArgs where
  method : String
  url : String
  params : Option (List (String × String))
  json : Option String
  headers : Headers
  timeout : Rat
deriving DecidableEq

/-- An exception escaping `request_api`: either an exception raised by the
transport itself, or the `requests.HTTPError` raised by
`response.raise_for_status()`. -/
inductive ApiError (β : Type) where
  | transport (msg : String)
  | httpStatus (resp : Response β)
deriving DecidableEq

/-- Python truthiness of the `Optional[str]` argument `bearer_token`:
`None` and the empty string are falsy, every other string is truthy. -/
def pyTruthy : Option String → Bool
  | none => false
  | some s => !s.isEmpty

/-- `method.upper()` (ASCII case mapping, which covers every HTTP method
name). -/
def pyUpper (s : String) : String :=
  String.mk (s.data.map Char.toUpper)

/-- Modelled from the spec: the external HTTP collaborator's response exposes a
"raise if status ≥ 400" operation (`requests.Response.raise_for_status`, whose
code is not part of this repository): it raises exactly when the status code is
at least 400, and otherwise leaves the response as is. -/
def raise_for_status {β : Type} (resp : Response β) :
    Except (ApiError β) (Response β) :=
  if 400 ≤ resp.statusCode then .error (.httpStatus resp) else .ok resp

/-- `request_api` from `cnx_api.py`. The transport collaborator
(`session.request` if a session is given, else `requests.request`) is passed
explicitly together with its state `s`, so that the dispatched request and the
number of transport invocations are observable. Steps, as in the source:
normalize the method to upper case; build `final_headers` as a copy of the
caller's headers (`dict(headers or {})`); if `bearer_token` is truthy and the
key `"Authorization"` is absent, insert `"Authorization": f"Bearer {token}"`
(insertion of a fresh key appends it); dispatch once; `raise_for_status`;
return the response. -/
def request_api {σ β : Type}
    (transport : σ → RequestArgs → σ × Except String (Response β)) (s : σ)
    (method : String) (url : String)
    (params : Option (List (String × String))) (json_data : Option String)
    (headers : Option Headers) (bearer_token : Option String) (timeout : Rat) :
    σ × Except (ApiError β) (Response β) :=
  let methodU := pyUpper method
  let fh0 := headers.getD []
  let final_headers :=
    if pyTruthy bearer_token && !containsKey "Authorization" fh0 then
      fh0 ++ [("Authorization", "Bearer " ++ bearer_token.getD "")]
    else fh0
  let args : RequestArgs := ⟨methodU, url, params, json_data, final_headers, timeout⟩
  let out := transport s args
  (out.1,
    match out.2 with
    | .error e => .error (.transport e)
    | .ok resp => raise_for_status resp)

/-- A stub transport that records every request it receives and always answers
with the fixed `result`. -/
def recordingTransport {β : Type} (result : Except String (Response β)) :
    List RequestArgs → RequestArgs → List RequestArgs × Except String (Response β) :=
  fun log args => (log ++ [args], result)

/-! ## Spec-side definitions (for refinement statements) -/

/-- Written from the spec's words for the whitespace normalizer: decompose the
string into maximal runs of whitespace (each run is identified by
`takeWhile`/`dropWhile`, so it is maximal), replace every run of two or more
whitespace characters by a single space, and keep everything else unchanged. -/
def specCollapse : List Char → List Char
  | [] => []
  | c :: cs =>
    if pyIsSpace c then
      (if 2 ≤ (c :: cs.takeWhile pyIsSpace).length then [espacio]
       else c :: cs.takeWhile pyIsSpace) ++ specCollapse (cs.dropWhile pyIsSpace)
    else c :: specCollapse cs
termination_by l => l.length
decreasing_by
  all_goals simp only [List.length_cons]
  all_goals first
    | exact Nat.lt_succ_of_le (List.Sublist.length_le (List.dropWhile_sublist pyIsSpace))
    | omega

/-- Written from the claim's words for the character filter: a character is
retained iff it is an ASCII letter (`a`-`z`, `A`-`Z`), a digit (`0`-`9`),
whitespace, or a member of the allow-list. -/
def claimKeep (allow : List Char) (c : Char) : Prop :=
  ('a' ≤ c ∧ c ≤ 'z') ∨ ('A' ≤ c ∧ c ≤ 'Z') ∨ ('0' ≤ c ∧ c ≤ '9') ∨
  pyIsSpace c = true ∨ c ∈ allow

instance (allow : List Char) (c : Char) : Decidable (claimKeep allow c) := by
  unfold claimKeep
  infer_instance

/-- Adjacent characters are never both whitespace. This is the key invariant of
the output of `sub_multiespacio`. -/
def noDos (l : List Char) : Prop :=
  l.Chain' (fun a b => ¬(pyIsSpace a = true ∧ pyIsSpace b = true))

/-! ## Lemmas about the whitespace normalizer -/

theorem subGo_true_eq (l : List Char) :
    subGo l true = subGo (l.dropWhile pyIsSpace) false := by
  induction l with
  | nil => rfl
  | cons c cs ih =>
    cases hc : pyIsSpace c with
    | true => simp [subGo, hc, List.dropWhile_cons_of_pos hc, ih]
    | false =>
      rw [List.dropWhile_cons_of_neg (by simp [hc])]
      simp [subGo, hc]

theorem subGo_false_head (c : Char) (cs : List Char) :
    ∃ a as, subGo (c :: cs) false = a :: as ∧ pyIsSpace a = pyIsSpace c := by
  cases hc : pyIsSpace c with
  | false => exact ⟨c, subGo cs false, by simp [subGo, hc], hc⟩
  | true =>
    cases cs with
    | nil => exact ⟨c, [], by simp [subGo, hc], hc⟩
    | cons d cs' =>
      cases hd : pyIsSpace d with
      | false =>
        exact ⟨c, subGo (d :: cs') false, by simp [subGo, hc, hd], hc⟩
      | true =>
        exact ⟨espacio, subGo (d :: cs') true, by simp [subGo, hc, hd], by decide⟩

theorem subGo_true_head (l : List Char) (a : Char) (as : List Char)
    (h : subGo l true = a :: as) : pyIsSpace a = false := by
  induction l with
  | nil => simp [subGo] at h
  | cons c cs ih =>
    cases hc : pyIsSpace c with
    | true =>
      rw [show subGo (c :: cs) true = subGo cs true from by simp [subGo, hc]] at h
      exact ih h
    | false =>
      rw [show subGo (c :: cs) true = c :: subGo cs false from by simp [subGo, hc]] at h
      obtain ⟨h1, -⟩ := List.cons.inj h
      exact h1 ▸ hc

theorem subGo_chain' (l : List Char) (flag : Bool) :
    (subGo l flag).Chain' (fun a b => ¬(pyIsSpace a = true ∧ pyIsSpace b = true)) := by
  induction l generalizing flag with
  | nil => simp [subGo]
  | cons c cs ih =>
    cases flag with
    | true =>
      cases hc : pyIsSpace c with
      | true =>
        rw [show subGo (c :: cs) true = subGo cs true from by simp [subGo, hc]]
        exact ih true
      | false =>
        rw [show subGo (c :: cs) true = c :: subGo cs false from by simp [subGo, hc]]
        rw [List.chain'_cons']
        exact ⟨fun y _ => by simp [hc], ih false⟩
    | false =>
      cases hc : pyIsSpace c with
      | false =>
        rw [show subGo (c :: cs) false = c :: subGo cs false from by simp [subGo, hc]]
        rw [List.chain'_cons']
        exact ⟨fun y _ => by simp [hc], ih false⟩
      | true =>
        cases cs with
        | nil => simp [subGo, hc]
        | cons d cs' =>
          cases hd : pyIsSpace d with
          | false =>
            rw [show subGo (c :: d :: cs') false = c :: subGo (d :: cs') false from
              by simp [subGo, hc, hd]]
            rw [List.chain'_cons']
            refine ⟨?_, ih false⟩
            intro y hy
            obtain ⟨a, as, heq, ha⟩ := subGo_false_head d cs'
            rw [heq] at hy
            simp only [List.head?_cons, Option.mem_some_iff] at hy
            subst hy
            simp [ha, hd]
          | true =>
            rw [show subGo (c :: d :: cs') false = espacio :: subGo (d :: cs') true from
              by simp [subGo, hc, hd]]
            rw [List.chain'_cons']
            refine ⟨?_, ih true⟩
            intro y hy
            cases hh : subGo (d :: cs') true with
            | nil => rw [hh] at hy; simp at hy
            | cons a as =>
              rw [hh] at hy
              simp only [List.head?_cons, Option.mem_some_iff] at hy
              subst hy
              simp [subGo_true_head (d :: cs') a as hh]

theorem subGo_of_chain' (l : List Char) (h : noDos l) : subGo l false = l := by
  induction l with
  | nil => rfl
  | cons c cs ih =>
    rw [noDos, List.chain'_cons'] at h
    obtain ⟨hhead, htail⟩ := h
    cases hc : pyIsSpace c with
    | false =>
      rw [show subGo (c :: cs) false = c :: subGo cs false from by simp [subGo, hc]]
      rw [ih htail]
    | true =>
      cases cs with
      | nil => simp [subGo, hc]
      | cons d cs' =>
        have hd : pyIsSpace d = false := by
          have h2 := hhead d (by simp)
          simp [hc] at h2
          exact h2
        rw [show subGo (c :: d :: cs') false = c :: subGo (d :: cs') false from
          by simp [subGo, hc, hd]]
        rw [ih htail]

theorem chain'_pyStrip {R : Char → Char → Prop} (l : List Char) (h : l.Chain' R) :
    (pyStrip l).Chain' R := by
  unfold pyStrip
  have h1 : (l.dropWhile pyIsSpace).Chain' R :=
    List.Chain'.suffix h (List.dropWhile_suffix pyIsSpace)
  exact List.Chain'.prefix h1 ( List.rdropWhile_prefix pyIsSpace _)

theorem pyStrip_head (l : List Char) (a : Char) (as : List Char)
    (h : pyStrip l = a :: as) : pyIsSpace a = false := by
  unfold pyStrip at h
  obtain ⟨t, ht⟩ := List.rdropWhile_prefix pyIsSpace (l.dropWhile pyIsSpace)
  rw [h] at ht
  have h2 := List.head?_dropWhile_not pyIsSpace l
  rw [← ht] at h2
  simpa using h2

theorem pyStrip_idem (l : List Char) : pyStrip (pyStrip l) = pyStrip l := by
  cases heq : pyStrip l with
  | nil => rfl
  | cons a as =>
    have ha : pyIsSpace a = false := pyStrip_head l a as heq
    have h2 : List.rdropWhile pyIsSpace (l.dropWhile pyIsSpace) = a :: as := heq
    show pyStrip (a :: as) = a :: as
    unfold pyStrip
    rw [List.dropWhile_cons_of_neg (by simp [ha])]
    calc List.rdropWhile pyIsSpace (a :: as)
        = List.rdropWhile pyIsSpace
            (List.rdropWhile pyIsSpace (l.dropWhile pyIsSpace)) := by rw [h2]
      _ = List.rdropWhile pyIsSpace (l.dropWhile pyIsSpace) :=
          List.rdropWhile_idempotent pyIsSpace _
      _ = a :: as := h2

set_option maxHeartbeats 1000000 in
theorem subGo_eq_specCollapse_aux (n : Nat) (l : List Char) (hn : l.length ≤ n) :
    subGo l false = specCollapse l := by
  induction n generalizing l with
  | zero =>
    cases l with
    | nil =>
      rw [specCollapse]
      rfl
    | cons c cs => simp at hn
  | succ n ih =>
    cases l with
    | nil =>
      rw [specCollapse]
      rfl
    | cons c cs =>
      simp only [List.length_cons, Nat.succ_le_succ_iff] at hn
      cases hc : pyIsSpace c with
      | false =>
        rw [show subGo (c :: cs) false = c :: subGo cs false from by simp [subGo, hc]]
        rw [ih cs hn, specCollapse, hc]
        simp
      | true =>
        cases cs with
        | nil =>
          rw [show subGo [c] false = [c] from by simp [subGo, hc]]
          rw [specCollapse]
          simp [hc]
          rw [specCollapse]
        | cons d cs' =>
          cases hd : pyIsSpace d with
          | false =>
            rw [show subGo (c :: d :: cs') false = c :: subGo (d :: cs') false from
              by simp [subGo, hc, hd]]
            have ht : List.takeWhile pyIsSpace (d :: cs') = [] := by
              rw [List.takeWhile_cons]
              simp [hd]
            have hdrop : List.dropWhile pyIsSpace (d :: cs') = d :: cs' := by
              rw [List.dropWhile_cons]
              simp [hd]
            rw [specCollapse, ht, hdrop, hc]
            rw [ih (d :: cs') hn]
            simp
          | true =>
            have hlen : ((d :: cs').dropWhile pyIsSpace).length ≤ n :=
              Nat.le_trans (List.Sublist.length_le (List.dropWhile_sublist pyIsSpace)) hn
            rw [show subGo (c :: d :: cs') false = espacio :: subGo (d :: cs') true from
              by simp [subGo, hc, hd]]
            have ht : List.takeWhile pyIsSpace (d :: cs') =
                d :: List.takeWhile pyIsSpace cs' := by
              rw [List.takeWhile_cons]
              simp [hd]
            rw [subGo_true_eq, ih ((d :: cs').dropWhile pyIsSpace) hlen]
            rw [specCollapse, ht, hc]
            simp

theorem subGo_eq_specCollapse (l : List Char) : subGo l false = specCollapse l :=
  subGo_eq_specCollapse_aux l.length l (Nat.le_refl _)

theorem limpiar_espacios_core_idem (l : List Char) :
    limpiar_espacios_core (limpiar_espacios_core l) = limpiar_espacios_core l := by
  unfold limpiar_espacios_core sub_multiespacio
  have hchain : noDos (pyStrip (subGo l false)) :=
    chain'_pyStrip _ (subGo_chain' l false)
  rw [subGo_of_chain' _ hchain, pyStrip_idem]

/-! ## Lemmas about the character filter -/

theorem enClase_eq_claimKeep (allow : List Char) (c : Char) :
    enClase allow c = decide (claimKeep allow c) := by
  simp [enClase, claimKeep, List.contains, Bool.or_assoc]

/-! ## Claim theorems -/

/-- C1: for every string and allow-list, `limpiar_caracteres` returns the input
with exactly those characters removed that are not an ASCII letter, not a
digit, not whitespace and not allow-listed (i.e. it keeps exactly the
characters satisfying `claimKeep`), preserving the order of the retained
characters (the result is a sublist of the input); on the spec's examples it
returns "hllo_world" and leaves "a]b^c-d" unchanged (allow-listed
regex-special characters act as literals). -/
theorem claim_C1 :
    (∀ (s allow : List Char),
        limpiar_caracteres (PyValue.vStr s) allow =
          Except.ok (some (s.filter (fun c => decide (claimKeep allow c)))) ∧
        List.Sublist (limpiar_caracteres_core s allow) s) ∧
      limpiar_caracteres (PyValue.vStr "héllo_world!".data) ['_'] =
        Except.ok (some "hllo_world".data) ∧
      limpiar_caracteres (PyValue.vStr "a]b^c-d".data) ([']'] ++ ['^'] ++ ['-']) =
        Except.ok (some "a]b^c-d".data) := by
  refine ⟨fun s allow => ⟨?_, ?_⟩, by rfl, by rfl⟩
  · show Except.ok (some (limpiar_caracteres_core s allow)) =
      Except.ok (some (s.filter (fun c => decide (claimKeep allow c))))
    rw [show limpiar_caracteres_core s allow =
        s.filter (fun c => decide (claimKeep allow c)) from
      List.filter_congr (fun c _ => enClase_eq_claimKeep allow c)]
  · exact List.filter_sublist s

/-- C2: `limpiar_espacios` replaces every maximal run of two or more
whitespace characters by a single space (refinement against `specCollapse`,
which is written from the spec's words) and then strips leading and trailing
whitespace; on the spec's example it returns "a b c". -/
theorem claim_C2 :
    (∀ l : List Char, limpiar_espacios_core l = pyStrip (specCollapse l)) ∧
      limpiar_espacios (PyValue.vStr "  a   b\t\tc  ".data) =
        Except.ok (some "a b c".data) := by
  refine ⟨fun l => ?_, by rfl⟩
  unfold limpiar_espacios_core sub_multiespacio
  rw [subGo_eq_specCollapse]

/-- C3: `limpiar_espacios` is idempotent: applying it twice gives the same
result as applying it once, for every string. -/
theorem claim_C3 (s : List Char) :
    limpiar_espacios_core (limpiar_espacios_core s) = limpiar_espacios_core s :=
  limpiar_espacios_core_idem s

/-- C4: on the absent marker `None`, every guarded function returns `None`,
and the wrapped transformation is never invoked: the guard's result is
independent of the wrapped function. -/
theorem claim_C4 :
    limpiar_espacios PyValue.vNone = Except.ok none ∧
    (∀ permitir : List Char,
      limpiar_caracteres PyValue.vNone permitir = Except.ok none) ∧
    (∀ (α : Type) (f g : List Char → α),
      decorador_validar_texto f PyValue.vNone = Except.ok none ∧
      decorador_validar_texto f PyValue.vNone = decorador_validar_texto g PyValue.vNone) :=
  ⟨rfl, fun _ => rfl, fun _ _ _ => ⟨rfl, rfl⟩⟩

/-- C5: on a first argument that is neither a string nor `None`, every guarded
function raises a `TypeError` whose message names the actual runtime type
received, and the wrapped transformation is never invoked (the result is
independent of the wrapped function). -/
theorem claim_C5 (v : PyValue) (hstr : ∀ s, v ≠ PyValue.vStr s)
    (hnone : v ≠ PyValue.vNone) :
    limpiar_espacios v = Except.error (PyErr.typeError (mensajeError v)) ∧
    (∀ permitir, limpiar_caracteres v permitir =
        Except.error (PyErr.typeError (mensajeError v))) ∧
    (∀ (α : Type) (f g : List Char → α),
      decorador_validar_texto f v = Except.error (PyErr.typeError (mensajeError v)) ∧
      decorador_validar_texto f v = decorador_validar_texto g v) ∧
    mensajeError v = "Se esperaba str o None, pero se recibio " ++ pyTypeName v := by
  cases v with
  | vNone => exact absurd rfl hnone
  | vStr s => exact absurd rfl (hstr s)
  | vInt n => exact ⟨rfl, fun _ => rfl, fun _ _ _ => ⟨rfl, rfl⟩, rfl⟩
  | vBool b => exact ⟨rfl, fun _ => rfl, fun _ _ _ => ⟨rfl, rfl⟩, rfl⟩

/-- Witness for C5 at the concrete non-string, non-None input `7`. -/
theorem claim_C5_witness :
    limpiar_espacios (PyValue.vInt 7) =
      Except.error (PyErr.typeError (mensajeError (PyValue.vInt 7))) :=
  (claim_C5 (PyValue.vInt 7) (fun s => by simp) (by simp)).1

/-- C9: duplicate entries in the allow-list are harmless: any two allow-lists
with the same members give the same result of `limpiar_caracteres`. -/
theorem claim_C9 (s l l' : List Char) (h : ∀ c : Char, c ∈ l' ↔ c ∈ l) :
    limpiar_caracteres (PyValue.vStr s) l' = limpiar_caracteres (PyValue.vStr s) l := by
  show Except.ok (some (limpiar_caracteres_core s l')) =
    Except.ok (some (limpiar_caracteres_core s l))
  unfold limpiar_caracteres_core
  congr 1
  congr 1
  apply List.filter_congr
  intro c _
  unfold enClase
  have hc : l'.contains c = l.contains c := by
    simp only [List.contains, List.elem_eq_mem]
    exact decide_eq_decide.mpr (h c)
  rw [hc]

/-- Witness for C9: the allow-list with a duplicated entry gives the same
result as the deduplicated one. -/
theorem claim_C9_witness :
    limpiar_caracteres (PyValue.vStr "a!b".data) ['!', '!'] =
      limpiar_caracteres (PyValue.vStr "a!b".data) ['!'] :=
  claim_C9 "a!b".data ['!'] ['!', '!'] (fun c => by simp)

/-- C6 as stated is refuted by the empty bearer token: the token `""` is
provided (it is not None) and the caller headers `{}` contain no key
"Authorization", yet the headers dispatched to the transport are `{}`,
without any "Authorization" entry (in particular not "Bearer "). -/
theorem claim_C6_counterexample :
    (request_api (recordingTransport (Except.ok (⟨200, 0⟩ : Response Nat))) []
        "GET" "http://example.com" none none (some []) (some "") 15).1.map
        RequestArgs.headers = [[]] ∧
    containsKey "Authorization" [] = false := ⟨rfl, rfl⟩

/-- C6 (amended): for every call where `bearer_token` is provided and
non-empty and the caller headers contain no key "Authorization", the headers
dispatched to the transport are the caller headers extended with
"Authorization" ↦ "Bearer <token>"; and if the caller headers already contain
the key "Authorization", they are dispatched unchanged (the existing value is
not overwritten). -/
theorem claim_C6_amended {β : Type} (r : Except String (Response β)) (m u : String)
    (p : Option (List (String × String))) (j : Option String) (hs : Headers)
    (t : String) (tmo : Rat) (ht : t ≠ "") :
    (containsKey "Authorization" hs = false →
      (request_api (recordingTransport r) [] m u p j (some hs) (some t) tmo).1 =
        [⟨pyUpper m, u, p, j, hs ++ [("Authorization", "Bearer " ++ t)], tmo⟩]) ∧
    (containsKey "Authorization" hs = true →
      (request_api (recordingTransport r) [] m u p j (some hs) (some t) tmo).1 =
        [⟨pyUpper m, u, p, j, hs, tmo⟩]) := by
  have hemp : t.isEmpty = false := by
    cases hemp : t.isEmpty
    · rfl
    · exact absurd ((String.isEmpty_iff t).mp hemp) ht
  have htr : pyTruthy (some t) = true := by simp [pyTruthy, hemp]
  constructor
  · intro hA
    simp [request_api, recordingTransport, htr, hA]
  · intro hA
    simp [request_api, recordingTransport, htr, hA]

/-- Witness for the amended C6 at a concrete call: the token "X" is injected
when no Authorization header exists, and an existing Authorization header is
left untouched. -/
theorem claim_C6_amended_witness :
    (request_api (recordingTransport (Except.ok (⟨200, 0⟩ : Response Nat))) []
        "GET" "u" none none (some []) (some "X") 15).1 =
      [⟨"GET", "u", none, none, [("Authorization", "Bearer X")], 15⟩] ∧
    (request_api (recordingTransport (Except.ok (⟨200, 0⟩ : Response Nat))) []
        "GET" "u" none none (some [("Authorization", "y")]) (some "X") 15).1 =
      [⟨"GET", "u", none, none, [("Authorization", "y")], 15⟩] :=
  ⟨(claim_C6_amended (Except.ok (⟨200, 0⟩ : Response Nat)) "GET" "u" none none []
      "X" 15 (by simp)).1 rfl,
   (claim_C6_amended (Except.ok (⟨200, 0⟩ : Response Nat)) "GET" "u" none none
      [("Authorization", "y")] "X" 15 (by simp)).2 rfl⟩

/-- C7: through a stub transport, a response with status code ≥ 400 (e.g. 500)
makes `request_api` raise the HTTP-status error (from `raise_for_status`), a
response with status 200 is returned unchanged, and the transport is invoked
exactly once in either case (no retries). -/
theorem claim_C7 {β : Type} (resp : Response β) (m u : String)
    (p : Option (List (String × String))) (j : Option String)
    (hs : Option Headers) (tk : Option String) (tmo : Rat) :
    ((request_api (recordingTransport (Except.ok resp)) [] m u p j hs tk tmo).1.length
        = 1) ∧
    (400 ≤ resp.statusCode →
      (request_api (recordingTransport (Except.ok resp)) [] m u p j hs tk tmo).2 =
        Except.error (ApiError.httpStatus resp)) ∧
    (resp.statusCode = 200 →
      (request_api (recordingTransport (Except.ok resp)) [] m u p j hs tk tmo).2 =
        Except.ok resp) := by
  refine ⟨?_, ?_, ?_⟩
  · simp [request_api, recordingTransport]
  · intro h
    simp [request_api, recordingTransport, raise_for_status, h]
  · intro h
    simp [request_api, recordingTransport, raise_for_status, h]

/-- Witness for C7: status 500 raises the HTTP-status error, status 200 is
returned unchanged, each with exactly one transport call. -/
theorem claim_C7_witness :
    ((request_api (recordingTransport (Except.ok (⟨500, 0⟩ : Response Nat))) []
        "GET" "u" none none none none 15).2 =
      Except.error (ApiError.httpStatus ⟨500, 0⟩)) ∧
    ((request_api (recordingTransport (Except.ok (⟨200, 0⟩ : Response Nat))) []
        "GET" "u" none none none none 15).2 = Except.ok ⟨200, 0⟩) ∧
    ((request_api (recordingTransport (Except.ok (⟨500, 0⟩ : Response Nat))) []
        "GET" "u" none none none none 15).1.length = 1) :=
  ⟨(claim_C7 (⟨500, 0⟩ : Response Nat) "GET" "u" none none none none 15).2.1
      (by decide),
   (claim_C7 (⟨200, 0⟩ : Response Nat) "GET" "u" none none none none 15).2.2 rfl,
   (claim_C7 (⟨500, 0⟩ : Response Nat) "GET" "u" none none none none 15).1⟩

/-- C8: the caller's header mapping is never mutated: the dispatched header
set is a derived copy that preserves every caller entry, extends the original
by at most one appended Authorization entry, and is exactly the caller's
headers whenever the literal key "Authorization" is already present
(case-sensitive comparison: a caller key "authorization" does not block the
injection, as the final conjunct shows on a concrete call). -/
theorem claim_C8 {β : Type} (r : Except String (Response β)) (m u : String)
    (p : Option (List (String × String))) (j : Option String)
    (hs : Headers) (tk : Option String) (tmo : Rat) :
    (∃ fh, (request_api (recordingTransport r) [] m u p j (some hs) tk tmo).1 =
        [⟨pyUpper m, u, p, j, fh, tmo⟩] ∧
      (fh = hs ∨ fh = hs ++ [("Authorization", "Bearer " ++ tk.getD "")]) ∧
      (∀ pr ∈ hs, pr ∈ fh) ∧
      (containsKey "Authorization" hs = true → fh = hs)) ∧
    (request_api (recordingTransport r) [] "GET" u p j
        (some [("authorization", "x")]) (some "T") tmo).1 =
      [⟨"GET", u, p, j,
        [("authorization", "x"), ("Authorization", "Bearer T")], tmo⟩] := by
  constructor
  · cases hcond : pyTruthy tk && !containsKey "Authorization" hs with
    | false =>
      refine ⟨hs, ?_, Or.inl rfl, fun pr hpr => hpr, fun _ => rfl⟩
      simp [request_api, recordingTransport, hcond]
    | true =>
      refine ⟨hs ++ [("Authorization", "Bearer " ++ tk.getD "")], ?_, Or.inr rfl,
        fun pr hpr => List.mem_append_left _ hpr, ?_⟩
      · simp [request_api, recordingTransport, hcond]
      · intro hA
        rw [hA] at hcond
        simp at hcond
  · rfl

/-- Witness for C8: with an "Authorization" header already present, the
dispatched headers are exactly the caller's headers. -/
theorem claim_C8_witness :
    (request_api (recordingTransport (Except.ok (⟨200, 0⟩ : Response Nat))) []
        "GET" "u" none none (some [("Authorization", "x")]) (some "T") 15).1 =
      [⟨"GET", "u", none, none, [("Authorization", "x")], 15⟩] := by
  obtain ⟨fh, h1, h2, h3, h4⟩ :=
    (claim_C8 (Except.ok (⟨200, 0⟩ : Response Nat)) "GET" "u" none none
      [("Authorization", "x")] (some "T") 15).1
  rw [h4 rfl] at h1
  exact h1

/-- C10: with `bearer_token` equal to the empty string and caller headers
without an "Authorization" key, `request_api` dispatches the caller headers
unchanged, with no Authorization header added: the injection condition
requires a truthy (non-empty) token, not merely a non-absent one. -/
theorem claim_C10 {β : Type} (r : Except String (Response β)) (m u : String)
    (p : Option (List (String × String))) (j : Option String)
    (hs : Headers) (tmo : Rat) (_h : containsKey "Authorization" hs = false) :
    (request_api (recordingTransport r) [] m u p j (some hs) (some "") tmo).1 =
      [⟨pyUpper m, u, p, j, hs, tmo⟩] := by
  have htr : pyTruthy (some "") = false := rfl
  simp [request_api, recordingTransport, htr]

/-- Witness for C10 at a concrete call with empty caller headers. -/
theorem claim_C10_witness :
    (request_api (recordingTransport (Except.ok (⟨200, 0⟩ : Response Nat))) []
        "GET" "u" none none (some []) (some "") 15).1 =
      [⟨"GET", "u", none, none, [], 15⟩] :=
  claim_C10 (Except.ok (⟨200, 0⟩ : Response Nat)) "GET" "u" none none [] 15 rfl

end Spec2Proof
